import Mathlib

/-!
Shallow embedding of the segmentation / split-plan engine of the Split-PDF
repository (src/components/SplitPdfTool.tsx, src/services/geminiService.ts,
src/types.ts), together with proofs of the specification claims about it.

The React component state that the claims concern (pages, ranges, history,
historyIndex) is embedded as an explicit `AppState` record, and every handler
becomes a pure function on that record.  JavaScript numbers holding page
bounds are embedded as `Int` (the oracle and the numeric form fields may
produce values outside `[1, pageCount]`, including non-positive ones);
page identifiers and counts are `Nat`.  `Date.now()` is passed in as an
explicit `now : Nat` parameter.  The external suggestion oracle is embedded
as an `OracleOutcome` value (API failure, or a raw reply text), and the
JSON decoding of a reply is a `parse` function parameter; a reply on which
`parse` is `none` is a malformed reply (`JSON.parse` throws on it).
-/

/-- `PdfPage` from src/types.ts.  `thumbnail` is presentation-only and
carries no logic, so it is omitted. -/
structure PdfPage where
  id : Nat
  pageNumber : Nat
  selected : Bool
  rotation : Nat
deriving Repr, DecidableEq

/-- `SplitRange` from src/types.ts.  The source field `end` is a reserved
word in Lean and is embedded as `stop`. -/
structure SplitRange where
  id : String
  start : Int
  stop : Int
  label : String
  color : String
deriving Repr, DecidableEq

/-- One output specification produced by `performRealSplitting`: the file
name handed to `createPdfFromPages` together with the 0-based page index
list.  (The byte-level PDF assembly is the external realization
collaborator and is out of scope.) -/
structure OutputSpec where
  fileName : String
  pageIndices : List Int
deriving Repr, DecidableEq

/-- The two validation error classes of the specification.  The source's
`handleAddRange` guard is the single disjunction
`start > end || start < 1 || end > pages.length` (one alert); the spec's
names label its disjuncts, with `start > end` tested first as in the
source's evaluation order. -/
inductive ValidationError where
  | InvertedBounds
  | OutOfBounds
deriving Repr, DecidableEq

/-- Failure of the suggestion oracle path (`getSmartSplitSuggestions`
throws). -/
inductive SuggestionError where
  | SuggestionFailed
deriving Repr, DecidableEq

/-- A raw `{start, end, label}` triple as decoded from the oracle's JSON
reply (src/services/geminiService.ts).  `end` is embedded as `stop`. -/
structure RawSuggestion where
  start : Int
  stop : Int
  label : String
deriving Repr, DecidableEq

/-- The observable outcome of one oracle call: the API call throws, or it
returns a reply text (`response.text`; an absent text is the empty
string, which is falsy in the source's `if (!text)` check). -/
inductive OracleOutcome where
  | apiError
  | reply (text : String)
deriving Repr, DecidableEq

/-- `RANGE_COLORS` from src/constants. -/
def RANGE_COLORS : List String :=
  ["#3b82f6", "#ef4444", "#10b981", "#f59e0b",
   "#8b5cf6", "#ec4899", "#06b6d4", "#f97316"]

/-- The component state fragment of `SplitPdfTool` that the claims are
about: `pages`, `ranges` (the Plan), `history` and `historyIndex`.
`historyIndex` is a JavaScript number initialized to `-1`, hence `Int`. -/
structure AppState where
  pages : List PdfPage
  ranges : List SplitRange
  history : List (List SplitRange)
  historyIndex : Int
deriving Repr, DecidableEq

/-- The initial component state (also the state restored by
`handleReset`): no pages, no ranges, empty history, cursor `-1`. -/
def initState : AppState :=
  { pages := [], ranges := [], history := [], historyIndex := -1 }

/-- The state established by `handleFileUpload` for a document with
`pageCount` pages: fresh pages with rotation 0, empty plan, history
`[[]]`, cursor 0. -/
def uploadState (pageCount : Nat) : AppState :=
  { pages := (List.range pageCount).map fun i =>
      { id := i, pageNumber := i + 1, selected := false, rotation := 0 },
    ranges := [],
    history := [[]],
    historyIndex := 0 }

/-- The history update performed by `updateRanges` in SplitPdfTool.tsx:
truncate the history after the cursor (`history.slice(0, historyIndex + 1)`),
append the new snapshot, and evict one snapshot from the front if the
length exceeds 20 (`if (newHistory.length > 20) newHistory.shift()`). -/
def historyPush (hist : List (List SplitRange)) (cursor : Int)
    (snap : List SplitRange) : List (List SplitRange) :=
  if 20 < (hist.take (cursor + 1).toNat ++ [snap]).length
  then (hist.take (cursor + 1).toNat ++ [snap]).drop 1
  else hist.take (cursor + 1).toNat ++ [snap]

/-- `updateRanges` from SplitPdfTool.tsx: push the new plan through
`historyPush` and place the cursor on the last retained entry
(`setHistoryIndex(newHistory.length - 1)`). -/
def updateRanges (s : AppState) (newRanges : List SplitRange) : AppState :=
  { s with history := historyPush s.history s.historyIndex newRanges,
           historyIndex :=
             ((historyPush s.history s.historyIndex newRanges).length : Int) - 1,
           ranges := newRanges }

/-- `undo` from SplitPdfTool.tsx: when `historyIndex > 0`, show the
previous snapshot and move the cursor back; otherwise do nothing. -/
def undo (s : AppState) : AppState :=
  if 0 < s.historyIndex then
    { s with ranges := s.history.getD (s.historyIndex - 1).toNat [],
             historyIndex := s.historyIndex - 1 }
  else s

/-- `redo` from SplitPdfTool.tsx: when `historyIndex < history.length - 1`,
show the next snapshot and move the cursor forward; otherwise do
nothing. -/
def redo (s : AppState) : AppState :=
  if s.historyIndex < (s.history.length : Int) - 1 then
    { s with ranges := s.history.getD (s.historyIndex + 1).toNat [],
             historyIndex := s.historyIndex + 1 }
  else s

/-- `handleAddRange` from SplitPdfTool.tsx, after the numeric form fields
have been parsed to the integers `start` and `stop`.  On the guard
`start > end || start < 1 || end > pages.length` the source alerts and
leaves the state untouched; this is modelled by returning the unchanged
state paired with the error class of the first failing disjunct.  On
success it appends the new range (fresh id from `Date.now()`, default
label `Part {n+1}`, cyclic palette color) and pushes one snapshot. -/
def handleAddRange (now : Nat) (start stop : Int) (s : AppState) :
    AppState × Option ValidationError :=
  if start > stop ∨ start < 1 ∨ stop > (s.pages.length : Int) then
    (s, some (if start > stop then ValidationError.InvertedBounds
              else ValidationError.OutOfBounds))
  else
    let newRange : SplitRange :=
      { id := "manual-" ++ toString now,
        start := start,
        stop := stop,
        label := "Part " ++ toString (s.ranges.length + 1),
        color := RANGE_COLORS.getD (s.ranges.length % RANGE_COLORS.length) "" }
    (updateRanges s (s.ranges ++ [newRange]), none)

/-- The range-deletion handler from SplitPdfTool.tsx:
`updateRanges(ranges.filter(r => r.id !== range.id))`. -/
def removeRange (rid : String) (s : AppState) : AppState :=
  updateRanges s (s.ranges.filter fun r => r.id ≠ rid)

/-- The label input handler from SplitPdfTool.tsx: write the new label
into the range at position `idx` and push a snapshot. -/
def relabelRange (idx : Nat) (newLabel : String) (s : AppState) : AppState :=
  updateRanges s (s.ranges.mapIdx fun i r =>
    if i = idx then { r with label := newLabel } else r)

/-- `updateRangeColor` from SplitPdfTool.tsx. -/
def updateRangeColor (rid : String) (color : String) (s : AppState) : AppState :=
  updateRanges s (s.ranges.map fun r =>
    if r.id = rid then { r with color := color } else r)

/-- `handleRotatePage` from SplitPdfTool.tsx: advance the rotation of the
page with the given id by 90 degrees modulo 360; ranges and history are
not touched. -/
def handleRotatePage (pid : Nat) (s : AppState) : AppState :=
  { s with pages := s.pages.map fun p =>
      if p.id = pid then { p with rotation := (p.rotation + 90) % 360 } else p }

/-- `getSmartSplitSuggestions` from src/services/geminiService.ts.  An API
error is rethrown as `SuggestionFailed`; an empty reply text short-circuits
to the empty suggestion list (`if (!text) return []`); otherwise the reply
is decoded by `parse` (the `JSON.parse` of the source — `none` models a
decoding failure, which the source catches and rethrows as
`SuggestionFailed`), and each raw triple becomes a `SplitRange` with a
fresh id and an empty color. -/
def getSmartSplitSuggestions (parse : String → Option (List RawSuggestion))
    (now : Nat) (o : OracleOutcome) : Except SuggestionError (List SplitRange) :=
  match o with
  | OracleOutcome.apiError => Except.error SuggestionError.SuggestionFailed
  | OracleOutcome.reply text =>
      if text = "" then Except.ok []
      else
        match parse text with
        | none => Except.error SuggestionError.SuggestionFailed
        | some rawRanges =>
            Except.ok (rawRanges.mapIdx fun index r =>
              { id := "ai-range-" ++ toString now ++ "-" ++ toString index,
                start := r.start,
                stop := r.stop,
                label := r.label,
                color := "" })

/-- The set of characters matched by the JavaScript `\s` class (restricted
to the code points that occur in practice: ASCII whitespace, NBSP, the
Unicode space separators, line/paragraph separators, and the BOM). -/
def jsWhitespaceChar (c : Char) : Bool :=
  c = ' ' ∨ c = '\t' ∨ c = '\n' ∨ c = '\r' ∨
  c = '\x0b' ∨ c = '\x0c' ∨ c.toNat = 0xa0 ∨ c.toNat = 0x1680 ∨
  (0x2000 ≤ c.toNat ∧ c.toNat ≤ 0x200a) ∨ c.toNat = 0x2028 ∨
  c.toNat = 0x2029 ∨ c.toNat = 0x202f ∨ c.toNat = 0x205f ∨
  c.toNat = 0x3000 ∨ c.toNat = 0xfeff

/-- Strip JavaScript whitespace from both ends of a character list
(the `String.prototype.trim` of the source). -/
def trimChars (cs : List Char) : List Char :=
  ((cs.dropWhile jsWhitespaceChar).reverse.dropWhile jsWhitespaceChar).reverse

/-- `handleAiSmartSplit` from SplitPdfTool.tsx: nothing happens on a blank
prompt (`if (!aiPrompt.trim()) return`); on a successful oracle call the
suggested ranges get palette colors by position and replace the whole plan
through a single `updateRanges` call; on a thrown error the source only
alerts, leaving the state untouched. -/
def handleAiSmartSplit (parse : String → Option (List RawSuggestion))
    (now : Nat) (prompt : String) (o : OracleOutcome) (s : AppState) : AppState :=
  if trimChars prompt.data = [] then s
  else
    match getSmartSplitSuggestions parse now o with
    | Except.error _ => s
    | Except.ok newRanges =>
        updateRanges s (newRanges.mapIdx fun i r =>
          { r with color := RANGE_COLORS.getD (i % RANGE_COLORS.length) "" })

/-- The consecutive integers `[a, a+1, ..., a+len-1]`. -/
def intRun (a : Int) (len : Nat) : List Int :=
  (List.range len).map fun (j : Nat) => a + (j : Int)

/-- The 0-based page indices of one explicit range, from the RANGES branch
of `performRealSplitting`: `for (let j = r.start - 1; j < r.end; j++)`.
The loop from `a` (inclusive) to `b` (exclusive) in steps of one visits
exactly `(b - a).toNat` integers starting at `a`. -/
def rangeIndices (r : SplitRange) : List Int :=
  intRun (r.start - 1) (r.stop - (r.start - 1)).toNat

/-- Collapse every maximal run of whitespace to a single underscore, the
`label.replace(/\s+/g, '_')` of the RANGES branch.  The flag records
whether the previous character belonged to a whitespace run. -/
def collapseWhitespaceAux : Bool → List Char → List Char
  | _, [] => []
  | inRun, c :: cs =>
      if jsWhitespaceChar c then
        (if inRun then [] else ['_']) ++ collapseWhitespaceAux true cs
      else c :: collapseWhitespaceAux false cs

/-- The label sanitization of the RANGES branch of
`performRealSplitting`: whitespace runs become single underscores. -/
def sanitizeLabel (label : String) : String :=
  ⟨collapseWhitespaceAux false label.data⟩

/-- Collapse every maximal run of characters that are not alphanumeric to
a single underscore.  This follows the SPEC'S words ("non-alphanumeric
runs replaced by a single separator") and exists only to be compared with
`sanitizeLabel`, the sanitization the source actually performs. -/
def specSanitizeAux : Bool → List Char → List Char
  | _, [] => []
  | inRun, c :: cs =>
      if c.isAlphanum then c :: specSanitizeAux false cs
      else (if inRun then [] else ['_']) ++ specSanitizeAux true cs

/-- Spec-worded sanitization (non-alphanumeric runs to one separator),
for comparison with `sanitizeLabel`. -/
def specSanitizeLabel (label : String) : String :=
  ⟨specSanitizeAux false label.data⟩

/-- The RANGES / AI_SMART branch of `performRealSplitting`: one
`OutputSpec` per range, in plan order, named
`{base}_part_{i+1}_{sanitized label}.pdf`. -/
def splitByRanges (baseName : String) (ranges : List SplitRange) : List OutputSpec :=
  ranges.mapIdx fun i r =>
    { fileName := baseName ++ "_part_" ++ toString (i + 1) ++ "_" ++
        sanitizeLabel r.label ++ ".pdf",
      pageIndices := rangeIndices r }

/-- The chunk starting at page index `i` in the FIXED branch: the inner
loop `for (let j = i; j < Math.min(i + k, totalPages); j++)`, with the
name `{base}_part_{part}.pdf`. -/
def fixedChunkSpec (baseName : String) (totalPages k part i : Nat) : OutputSpec :=
  { fileName := baseName ++ "_part_" ++ toString part ++ ".pdf",
    pageIndices := intRun (i : Int) (min (i + k) totalPages - i) }

/-- The outer loop of the FIXED branch
(`for (let i = 0; i < totalPages; i += fixedNumber)`), embedded with an
explicit fuel.  For `k ≥ 1` the loop body runs at most `totalPages`
times, so `splitByFixed` below supplies `totalPages` as fuel. -/
def splitByFixedAux (baseName : String) (totalPages k : Nat) :
    Nat → Nat → Nat → List OutputSpec
  | 0, _, _ => []
  | fuel + 1, i, part =>
      if i < totalPages then
        fixedChunkSpec baseName totalPages k part i ::
          splitByFixedAux baseName totalPages k fuel (i + k) (part + 1)
      else []

/-- The FIXED branch of `performRealSplitting` for chunk size `k`. -/
def splitByFixed (baseName : String) (totalPages k : Nat) : List OutputSpec :=
  splitByFixedAux baseName totalPages k totalPages 0 1

/-- The Range invariant of the spec for one plan: every range satisfies
`1 ≤ start ≤ end ≤ pageCount`. -/
abbrev PlanOK (pageCount : Nat) (plan : List SplitRange) : Prop :=
  ∀ r ∈ plan, 1 ≤ r.start ∧ r.start ≤ r.stop ∧ r.stop ≤ (pageCount : Int)

/-- The Range invariant over the whole state: the visible plan and every
history snapshot satisfy it with respect to the loaded page count. -/
abbrev StateOK (s : AppState) : Prop :=
  PlanOK s.pages.length s.ranges ∧ ∀ h ∈ s.history, PlanOK s.pages.length h

/-- Well-formedness of the history cursor: it is a valid index and the
visible plan is the snapshot under the cursor.  Every reachable state
with a loaded document satisfies this. -/
abbrev HistWF (s : AppState) : Prop :=
  0 ≤ s.historyIndex ∧ s.historyIndex < (s.history.length : Int) ∧
  s.ranges = s.history.getD s.historyIndex.toNat []

/-- The history invariant of the spec: bounded length, and a valid cursor
whenever the history is nonempty. -/
abbrev HistInv (s : AppState) : Prop :=
  s.history.length ≤ 20 ∧
  (s.history ≠ [] → 0 ≤ s.historyIndex ∧ s.historyIndex < (s.history.length : Int))

/-- `redo` has a target: the cursor is strictly before the last
snapshot. -/
abbrev canRedo (s : AppState) : Prop :=
  s.historyIndex < (s.history.length : Int) - 1

/-- The states reachable by any sequence of the embedded operations from
the initial (or reset) state, with document loads interleaved
arbitrarily. -/
inductive Reachable : AppState → Prop where
  | init : Reachable initState
  | upload (s : AppState) (pageCount : Nat) :
      Reachable s → Reachable (uploadState pageCount)
  | addRange (s : AppState) (now : Nat) (start stop : Int) :
      Reachable s → Reachable (handleAddRange now start stop s).1
  | remove (s : AppState) (rid : String) :
      Reachable s → Reachable (removeRange rid s)
  | relabel (s : AppState) (idx : Nat) (lbl : String) :
      Reachable s → Reachable (relabelRange idx lbl s)
  | recolor (s : AppState) (rid color : String) :
      Reachable s → Reachable (updateRangeColor rid color s)
  | aiSplit (s : AppState) (parse : String → Option (List RawSuggestion))
      (now : Nat) (prompt : String) (o : OracleOutcome) :
      Reachable s → Reachable (handleAiSmartSplit parse now prompt o s)
  | undoStep (s : AppState) : Reachable s → Reachable (undo s)
  | redoStep (s : AppState) : Reachable s → Reachable (redo s)
  | rotate (s : AppState) (pid : Nat) :
      Reachable s → Reachable (handleRotatePage pid s)

/-! ### Helper lemmas about the history mechanism -/

theorem getD_mem_or_eq {α : Type} (l : List α) (n : Nat) (d : α) :
    l.getD n d ∈ l ∨ l.getD n d = d := by
  induction l generalizing n with
  | nil => right; simp
  | cons a t ih =>
      cases n with
      | zero => left; simp
      | succ m =>
          rcases ih m with h | h
          · left; simpa using Or.inr h
          · right; simpa using h

theorem updateRanges_pages (s : AppState) (nr : List SplitRange) :
    (updateRanges s nr).pages = s.pages := rfl

theorem updateRanges_ranges (s : AppState) (nr : List SplitRange) :
    (updateRanges s nr).ranges = nr := rfl

theorem updateRanges_historyIndex (s : AppState) (nr : List SplitRange) :
    (updateRanges s nr).historyIndex =
      ((updateRanges s nr).history.length : Int) - 1 := rfl

/-- Shape of the pushed history: the retained old snapshots are a suffix
of the truncated prefix `history.take (cursor + 1)`, with at most one
front eviction, and no eviction when the pushed length stays within the
bound. -/
theorem historyPush_shape (hist : List (List SplitRange)) (cursor : Int)
    (snap : List SplitRange) :
    ∃ n, n ≤ 1 ∧
      historyPush hist cursor snap =
        (hist.take (cursor + 1).toNat).drop n ++ [snap] ∧
      ((hist.take (cursor + 1).toNat).length + 1 ≤ 20 → n = 0) := by
  unfold historyPush
  split
  · rename_i hlen
    have hlen' : 19 < (hist.take (cursor + 1).toNat).length := by
      simp only [List.length_append, List.length_singleton] at hlen
      omega
    refine ⟨1, le_refl 1, ?_, ?_⟩
    · rw [List.drop_append_of_le_length (by omega)]
    · intro h
      omega
  · exact ⟨0, by omega, by simp, fun _ => rfl⟩

theorem historyPush_length_le (hist : List (List SplitRange)) (cursor : Int)
    (snap : List SplitRange) (h : hist.length ≤ 20) :
    (historyPush hist cursor snap).length ≤ 20 := by
  have ht : (hist.take (cursor + 1).toNat).length ≤ hist.length := by
    rw [List.length_take]
    omega
  unfold historyPush
  split
  · simp only [List.length_drop, List.length_append, List.length_singleton]
    omega
  · rename_i hn
    simp only [not_lt, List.length_append, List.length_singleton] at hn ⊢
    omega

theorem historyPush_length_pos (hist : List (List SplitRange)) (cursor : Int)
    (snap : List SplitRange) : 0 < (historyPush hist cursor snap).length := by
  unfold historyPush
  split
  · rename_i hgt
    simp only [List.length_append, List.length_singleton] at hgt
    simp only [List.length_drop, List.length_append, List.length_singleton]
    omega
  · simp

theorem mem_historyPush (hist : List (List SplitRange)) (cursor : Int)
    (snap h : List SplitRange) (hm : h ∈ historyPush hist cursor snap) :
    h ∈ hist ∨ h = snap := by
  obtain ⟨n, -, hshape, -⟩ := historyPush_shape hist cursor snap
  rw [hshape] at hm
  rcases List.mem_append.mp hm with hm | hm
  · exact Or.inl (List.mem_of_mem_take (List.mem_of_mem_drop hm))
  · simpa using Or.inr (List.mem_singleton.mp hm)

/-- The just-pushed snapshot sits under the new cursor. -/
theorem updateRanges_getD_cursor (s : AppState) (nr : List SplitRange) :
    (updateRanges s nr).history.getD (updateRanges s nr).historyIndex.toNat [] = nr := by
  obtain ⟨n, -, hshape, -⟩ := historyPush_shape s.history s.historyIndex nr
  have hx : (updateRanges s nr).history = ((s.history.take (s.historyIndex + 1).toNat).drop n) ++ [nr] := hshape
  set X := (s.history.take (s.historyIndex + 1).toNat).drop n with hX
  have hidx : (updateRanges s nr).historyIndex.toNat = X.length := by
    rw [updateRanges_historyIndex, hx]
    simp
  rw [hidx, hx]
  rw [List.getD_eq_getElem?_getD, List.getElem?_concat_length]
  rfl

theorem updateRanges_histInv (s : AppState) (nr : List SplitRange)
    (h : HistInv s) : HistInv (updateRanges s nr) := by
  have hpos := historyPush_length_pos s.history s.historyIndex nr
  refine ⟨historyPush_length_le _ _ _ h.1, fun _ => ?_⟩
  show (0 : Int) ≤ ((historyPush s.history s.historyIndex nr).length : Int) - 1 ∧
    ((historyPush s.history s.historyIndex nr).length : Int) - 1 <
      ((historyPush s.history s.historyIndex nr).length : Int)
  omega

theorem mapIdx_getD {α β : Type} (l : List α) (f : Nat → α → β) (i : Nat)
    (d : α) (d' : β) (h : i < l.length) :
    (l.mapIdx f).getD i d' = f i (l.getD i d) := by
  have h' : i < (l.mapIdx f).length := by
    rw [List.length_mapIdx]; exact h
  rw [List.getD_eq_getElem _ _ h', List.getD_eq_getElem _ _ h]
  simpa using List.get_mapIdx l f i h h'

theorem mem_mapIdx_imp {α β : Type} (l : List α) (f : Nat → α → β) (b : β)
    (hb : b ∈ l.mapIdx f) : ∃ a ∈ l, ∃ i, b = f i a := by
  rw [List.mem_iff_getElem] at hb
  obtain ⟨i, hi, hbi⟩ := hb
  have hil : i < l.length := by
    rw [List.length_mapIdx] at hi; exact hi
  refine ⟨l.get ⟨i, hil⟩, List.get_mem l i hil, i, ?_⟩
  rw [← hbi]
  simpa using (List.get_mapIdx l f i hil hi).symm

theorem planOK_getD (pc : Nat) (l : List (List SplitRange)) (n : Nat)
    (H : ∀ h ∈ l, PlanOK pc h) : PlanOK pc (l.getD n []) := by
  rcases getD_mem_or_eq l n [] with h | h
  · exact H _ h
  · rw [h]; intro r hr; cases hr

theorem stateOK_updateRanges (s : AppState) (nr : List SplitRange)
    (hs : StateOK s) (hnr : PlanOK s.pages.length nr) :
    StateOK (updateRanges s nr) := by
  refine ⟨?_, ?_⟩
  · rw [updateRanges_pages, updateRanges_ranges]; exact hnr
  · intro h hm
    rw [updateRanges_pages]
    rcases mem_historyPush s.history s.historyIndex nr h hm with h' | h'
    · exact hs.2 _ h'
    · rw [h']; exact hnr

theorem stateOK_undo (s : AppState) (hs : StateOK s) : StateOK (undo s) := by
  unfold undo
  split
  · exact ⟨planOK_getD _ _ _ hs.2, hs.2⟩
  · exact hs

theorem stateOK_redo (s : AppState) (hs : StateOK s) : StateOK (redo s) := by
  unfold redo
  split
  · exact ⟨planOK_getD _ _ _ hs.2, hs.2⟩
  · exact hs

theorem histInv_updateRanges_ops (s : AppState) (h : HistInv s) :
    (∀ now start stop, HistInv (handleAddRange now start stop s).1) ∧
    (∀ rid, HistInv (removeRange rid s)) ∧
    (∀ idx lbl, HistInv (relabelRange idx lbl s)) ∧
    (∀ rid c, HistInv (updateRangeColor rid c s)) ∧
    (∀ parse now prompt o, HistInv (handleAiSmartSplit parse now prompt o s)) := by
  refine ⟨?_, ?_, ?_, ?_, ?_⟩
  · intro now start stop
    unfold handleAddRange
    split
    · exact h
    · exact updateRanges_histInv _ _ h
  · intro rid; exact updateRanges_histInv _ _ h
  · intro idx lbl; exact updateRanges_histInv _ _ h
  · intro rid c; exact updateRanges_histInv _ _ h
  · intro parse now prompt o
    unfold handleAiSmartSplit
    split
    · exact h
    · split
      · exact h
      · exact updateRanges_histInv _ _ h

theorem histInv_undo (s : AppState) (h : HistInv s) : HistInv (undo s) := by
  unfold undo
  split
  · rename_i hg
    refine ⟨?_, fun hne => ?_⟩
    · show s.history.length ≤ 20
      exact h.1
    · have hne' : s.history ≠ [] := hne
      have hb := h.2 hne'
      show 0 ≤ s.historyIndex - 1 ∧ s.historyIndex - 1 < (s.history.length : Int)
      omega
  · exact h

theorem histInv_redo (s : AppState) (h : HistInv s) : HistInv (redo s) := by
  unfold redo
  split
  · rename_i hg
    refine ⟨?_, fun hne => ?_⟩
    · show s.history.length ≤ 20
      exact h.1
    · have hne' : s.history ≠ [] := hne
      have hb := h.2 hne'
      show 0 ≤ s.historyIndex + 1 ∧ s.historyIndex + 1 < (s.history.length : Int)
      omega
  · exact h

/-! ### C1 — the Range invariant under the plan-mutating operations -/

/-- C1 (amended): every plan-mutating operation except the AI bulk
replacement — `addRange` (valid or rejected), `removeRange`, relabel,
recolor, `undo`, `redo` — preserves the Range invariant
`1 ≤ start ≤ end ≤ pageCount` on the visible Plan and on every history
snapshot; the AI bulk replacement preserves it only under the extra
hypothesis that every range decoded from the oracle's reply already
satisfies the bounds, because `handleAiSmartSplit` applies the oracle's
ranges without any bounds validation. -/
theorem planInvariant_ops (s : AppState) (hs : StateOK s) :
    (∀ now start stop, StateOK (handleAddRange now start stop s).1) ∧
    (∀ rid, StateOK (removeRange rid s)) ∧
    (∀ idx lbl, StateOK (relabelRange idx lbl s)) ∧
    (∀ rid c, StateOK (updateRangeColor rid c s)) ∧
    StateOK (undo s) ∧
    StateOK (redo s) ∧
    (∀ parse now prompt o,
      (∀ t rs, parse t = some rs →
        ∀ r ∈ rs, 1 ≤ r.start ∧ r.start ≤ r.stop ∧ r.stop ≤ (s.pages.length : Int)) →
      StateOK (handleAiSmartSplit parse now prompt o s)) := by
  refine ⟨?_, ?_, ?_, ?_, stateOK_undo s hs, stateOK_redo s hs, ?_⟩
  · intro now start stop
    unfold handleAddRange
    split
    · exact hs
    · rename_i hg
      push_neg at hg
      refine stateOK_updateRanges s _ hs ?_
      intro r hr
      rcases List.mem_append.mp hr with hr | hr
      · exact hs.1 r hr
      · rw [List.mem_singleton.mp hr]
        exact ⟨hg.2.1, hg.1, hg.2.2⟩
  · intro rid
    refine stateOK_updateRanges s _ hs ?_
    intro r hr
    exact hs.1 r (List.mem_of_mem_filter hr)
  · intro idx lbl
    refine stateOK_updateRanges s _ hs ?_
    intro r hr
    obtain ⟨a, ha, i, rfl⟩ := mem_mapIdx_imp _ _ _ hr
    by_cases h : i = idx
    · simp only [if_pos h]
      exact hs.1 a ha
    · simp only [if_neg h]
      exact hs.1 a ha
  · intro rid c
    refine stateOK_updateRanges s _ hs ?_
    intro r hr
    obtain ⟨a, ha, hfa⟩ := List.mem_map.mp hr
    by_cases h : a.id = rid
    · rw [← hfa]
      simp only [if_pos h]
      exact hs.1 a ha
    · rw [← hfa]
      simp only [if_neg h]
      exact hs.1 a ha
  · intro parse now prompt o hb
    unfold handleAiSmartSplit
    split
    · exact hs
    · split
      · exact hs
      · rename_i nr heq
        refine stateOK_updateRanges s _ hs ?_
        intro r hr
        obtain ⟨a, ha, i, rfl⟩ := mem_mapIdx_imp _ _ _ hr
        show 1 ≤ a.start ∧ a.start ≤ a.stop ∧ a.stop ≤ (s.pages.length : Int)
        rcases o with _ | t
        · simp [getSmartSplitSuggestions] at heq
        · simp only [getSmartSplitSuggestions] at heq
          by_cases ht : t = ""
          · rw [if_pos ht] at heq
            cases heq
            cases ha
          · rw [if_neg ht] at heq
            rcases hp : parse t with _ | raws
            · rw [hp] at heq
              exact Except.noConfusion heq
            · rw [hp] at heq
              cases heq
              obtain ⟨raw, hraw, j, rfl⟩ := mem_mapIdx_imp _ _ _ ha
              exact hb t raws hp raw hraw

/-- Witness for `planInvariant_ops` at a concrete state: the freshly
uploaded 3-page state satisfies the invariant and still does after an
`undo`. -/
theorem planInvariant_ops_witness : StateOK (undo (uploadState 3)) :=
  (planInvariant_ops (uploadState 3) (by decide)).2.2.2.2.1

/-- C1 as frozen is false: from the reachable freshly-uploaded 10-page
state, the AI bulk replacement with an oracle reply decoding to the
single raw range `(0, 99)` yields a reachable state whose Plan violates
`1 ≤ start ≤ end ≤ pageCount` — `handleAiSmartSplit` performs no bounds
validation on oracle ranges. -/
theorem planInvariant_counterexample :
    Reachable (handleAiSmartSplit (fun _ => some [⟨0, 99, "X"⟩]) 3 "p"
      (OracleOutcome.reply "r") (uploadState 10)) ∧
    ¬ StateOK (handleAiSmartSplit (fun _ => some [⟨0, 99, "X"⟩]) 3 "p"
      (OracleOutcome.reply "r") (uploadState 10)) :=
  ⟨Reachable.aiSplit _ _ _ _ _ (Reachable.upload initState 10 Reachable.init),
   by decide⟩

/-! ### C2 — addRange success and failure behaviour -/

/-- C2: for `1 ≤ start ≤ end ≤ pageCount`, `handleAddRange` succeeds —
no error, the Plan gets exactly one appended range with those bounds,
the default label `Part {n+1}` and the palette color `n mod paletteSize`
(`n` = prior range count), the pages are untouched, and exactly one new
snapshot is pushed (the cursor lands on it; at most one front eviction,
none while the pushed history fits the bound).  For `start < 1`,
`end > pageCount` or `start > end` it fails with the matching error
(`InvertedBounds` for inverted bounds, checked first as in the source,
`OutOfBounds` otherwise) and the state is unchanged. -/
theorem addRange_spec (s : AppState) (now : Nat) (start stop : Int) :
    ((1 ≤ start ∧ start ≤ stop ∧ stop ≤ (s.pages.length : Int)) →
      (handleAddRange now start stop s).2 = none ∧
      (handleAddRange now start stop s).1.ranges =
        s.ranges ++
          [{ id := "manual-" ++ toString now, start := start, stop := stop,
             label := "Part " ++ toString (s.ranges.length + 1),
             color := RANGE_COLORS.getD (s.ranges.length % RANGE_COLORS.length) "" }] ∧
      (handleAddRange now start stop s).1.pages = s.pages ∧
      (handleAddRange now start stop s).1.historyIndex =
        ((handleAddRange now start stop s).1.history.length : Int) - 1 ∧
      (handleAddRange now start stop s).1.history.getD
        (handleAddRange now start stop s).1.historyIndex.toNat [] =
        (handleAddRange now start stop s).1.ranges ∧
      (∃ n, n ≤ 1 ∧
        (handleAddRange now start stop s).1.history =
          (s.history.take (s.historyIndex + 1).toNat).drop n ++
            [(handleAddRange now start stop s).1.ranges] ∧
        ((s.history.take (s.historyIndex + 1).toNat).length + 1 ≤ 20 → n = 0))) ∧
    ((start < 1 ∨ stop > (s.pages.length : Int) ∨ start > stop) →
      (handleAddRange now start stop s).1 = s ∧
      (start > stop →
        (handleAddRange now start stop s).2 = some ValidationError.InvertedBounds) ∧
      (start ≤ stop →
        (handleAddRange now start stop s).2 = some ValidationError.OutOfBounds)) := by
  constructor
  · rintro ⟨h1, h2, h3⟩
    have hg : ¬ (start > stop ∨ start < 1 ∨ stop > (s.pages.length : Int)) := by
      push_neg
      exact ⟨h2, h1, h3⟩
    have e : handleAddRange now start stop s =
        (updateRanges s (s.ranges ++
          [{ id := "manual-" ++ toString now, start := start, stop := stop,
             label := "Part " ++ toString (s.ranges.length + 1),
             color := RANGE_COLORS.getD (s.ranges.length % RANGE_COLORS.length) "" }]),
         none) := by
      unfold handleAddRange
      rw [if_neg hg]
    rw [e]
    refine ⟨rfl, updateRanges_ranges _ _, updateRanges_pages _ _,
      updateRanges_historyIndex _ _, ?_, ?_⟩
    · rw [updateRanges_ranges]
      exact updateRanges_getD_cursor _ _
    · rw [updateRanges_ranges]
      exact historyPush_shape s.history s.historyIndex _
  · intro hinv
    have hg : start > stop ∨ start < 1 ∨ stop > (s.pages.length : Int) := by omega
    have e : handleAddRange now start stop s =
        (s, some (if start > stop then ValidationError.InvertedBounds
                  else ValidationError.OutOfBounds)) := by
      unfold handleAddRange
      rw [if_pos hg]
    rw [e]
    refine ⟨rfl, fun hio => ?_, fun hle => ?_⟩
    · simp only [if_pos hio]
    · have hn : ¬ start > stop := by omega
      simp only [if_neg hn]

/-- Witness for `addRange_spec`: on the 3-page upload state, adding
`(1, 2)` succeeds with the expected range and adding `(0, 2)` is
rejected as `OutOfBounds` with the state unchanged. -/
theorem addRange_spec_witness :
    (handleAddRange 5 1 2 (uploadState 3)).2 = none ∧
    (handleAddRange 5 1 2 (uploadState 3)).1.ranges =
      [{ id := "manual-5", start := 1, stop := 2, label := "Part 1",
         color := "#3b82f6" }] ∧
    (handleAddRange 7 0 2 (uploadState 3)).1 = uploadState 3 ∧
    (handleAddRange 7 0 2 (uploadState 3)).2 = some ValidationError.OutOfBounds := by
  have hv := (addRange_spec (uploadState 3) 5 1 2).1 (by decide)
  have hi := (addRange_spec (uploadState 3) 7 0 2).2 (by decide)
  refine ⟨hv.1, ?_, hi.1, hi.2.2 (by decide)⟩
  rw [hv.2.1]
  decide

/-! ### C3 — undo/redo round trip -/

/-- C3: in any state with a well-formed cursor, `undo` followed by `redo`
restores the whole state — in particular the visible Plan and the cursor
— whenever the cursor is strictly positive, and at the very first
position `undo` alone already changes nothing. -/
theorem undo_redo_roundTrip (s : AppState) (hWF : HistWF s) :
    (0 < s.historyIndex → redo (undo s) = s) ∧
    (s.historyIndex = 0 → undo s = s) := by
  obtain ⟨h0, hlen, hr⟩ := hWF
  constructor
  · intro h
    have e1 : undo s =
        { s with ranges := s.history.getD (s.historyIndex - 1).toNat [],
                 historyIndex := s.historyIndex - 1 } := by
      unfold undo
      rw [if_pos h]
    rw [e1]
    unfold redo
    rw [if_pos (by show s.historyIndex - 1 < (s.history.length : Int) - 1; omega)]
    have e2 : s.historyIndex - 1 + 1 = s.historyIndex := by omega
    show ({ s with
        ranges := s.history.getD (s.historyIndex - 1 + 1).toNat [],
        historyIndex := s.historyIndex - 1 + 1 } : AppState) = s
    rw [e2, ← hr]
  · intro h
    unfold undo
    rw [if_neg (by omega)]

/-- Witness for `undo_redo_roundTrip` on a concrete two-snapshot history
with the cursor on the second entry. -/
theorem undo_redo_roundTrip_witness :
    redo (undo { pages := [], ranges := [⟨"x", 1, 1, "L", "c"⟩],
                 history := [[], [⟨"x", 1, 1, "L", "c"⟩]], historyIndex := 1 }) =
      { pages := [], ranges := [⟨"x", 1, 1, "L", "c"⟩],
        history := [[], [⟨"x", 1, 1, "L", "c"⟩]], historyIndex := 1 } :=
  (undo_redo_roundTrip _ (by decide)).1 (by decide)

/-! ### C4 — a new mutation discards all redo targets -/

/-- C4: pushing any new plan through `updateRanges` leaves the cursor on
the last snapshot, so `redo` has no target; the snapshots retained below
the new one all come from the prefix `history.take (cursor + 1)` — every
snapshot after the cursor is discarded (with at most one further front
eviction).  In particular after `addRange; addRange; undo; addRange`
from a fresh 10-page document, `redo` is unavailable. -/
theorem mutation_truncates_redo :
    (∀ (s : AppState) (nr : List SplitRange), ¬ canRedo (updateRanges s nr)) ∧
    (∀ (s : AppState) (nr : List SplitRange), ∃ n, n ≤ 1 ∧
      (updateRanges s nr).history =
        (s.history.take (s.historyIndex + 1).toNat).drop n ++ [nr]) ∧
    ¬ canRedo (handleAddRange 2 5 6
        (undo (handleAddRange 1 3 4
          ((handleAddRange 0 1 2 (uploadState 10)).1)).1)).1 := by
  refine ⟨?_, ?_, by decide⟩
  · intro s nr
    show ¬ (((historyPush s.history s.historyIndex nr).length : Int) - 1 <
        ((historyPush s.history s.historyIndex nr).length : Int) - 1)
    exact lt_irrefl _
  · intro s nr
    obtain ⟨n, hn, hshape, -⟩ := historyPush_shape s.history s.historyIndex nr
    exact ⟨n, hn, hshape⟩

/-- Witness for `mutation_truncates_redo`: after pushing a plan onto a
concrete state whose cursor sits strictly before the last snapshot,
`redo` is unavailable. -/
theorem mutation_truncates_redo_witness :
    ¬ canRedo (updateRanges
      (⟨[], [], [[], [⟨"a", 1, 1, "A", "c"⟩]], 0⟩ : AppState) []) :=
  mutation_truncates_redo.1 _ []

/-! ### C5 — bounded history with a valid cursor -/

/-- C5: after every sequence of operations the history holds at most 20
snapshots and, whenever it is nonempty, `0 ≤ cursor < length`; moreover
on every push — evicting or not — the cursor lands on the last index and
the snapshot under it is exactly the just-pushed plan. -/
theorem history_bounded :
    (∀ s, Reachable s → HistInv s) ∧
    (∀ (s : AppState) (nr : List SplitRange),
      (updateRanges s nr).historyIndex =
        ((updateRanges s nr).history.length : Int) - 1 ∧
      (updateRanges s nr).history.getD
        (updateRanges s nr).historyIndex.toNat [] = nr) := by
  constructor
  · intro s h
    induction h with
    | init => exact ⟨by decide, fun hne => absurd rfl hne⟩
    | upload s pc _ _ =>
        refine ⟨?_, fun _ => ⟨?_, ?_⟩⟩
        · show ([[]] : List (List SplitRange)).length ≤ 20
          decide
        · show (0 : Int) ≤ 0
          decide
        · show (0 : Int) < (([[]] : List (List SplitRange)).length : Int)
          decide
    | addRange s now a b _ ih => exact (histInv_updateRanges_ops s ih).1 now a b
    | remove s rid _ ih => exact (histInv_updateRanges_ops s ih).2.1 rid
    | relabel s i l _ ih => exact (histInv_updateRanges_ops s ih).2.2.1 i l
    | recolor s rid c _ ih => exact (histInv_updateRanges_ops s ih).2.2.2.1 rid c
    | aiSplit s parse now prompt o _ ih =>
        exact (histInv_updateRanges_ops s ih).2.2.2.2 parse now prompt o
    | undoStep s _ ih => exact histInv_undo s ih
    | redoStep s _ ih => exact histInv_redo s ih
    | rotate s pid _ ih => exact ih
  · intro s nr
    exact ⟨updateRanges_historyIndex s nr, updateRanges_getD_cursor s nr⟩

/-- Witness for `history_bounded` at the concrete reachable state of a
fresh 5-page upload. -/
theorem history_bounded_witness :
    (uploadState 5).history.length ≤ 20 ∧
    ((uploadState 5).history ≠ [] →
      0 ≤ (uploadState 5).historyIndex ∧
      (uploadState 5).historyIndex < ((uploadState 5).history.length : Int)) :=
  history_bounded.1 (uploadState 5) (Reachable.upload initState 5 Reachable.init)

/-! ### C10 — rotation is a pure per-page frame effect -/

/-- C10: rotating a page changes nothing but that page's rotation field —
the Plan, the history, the cursor and every other page are untouched, the
page order is preserved, and a rotation in `{0, 90, 180, 270}` stays in
that set after the `+90 mod 360` step; `undo`, `redo` and every history
push leave all pages (hence all rotations) unchanged, and every
reachable state has all rotations in `{0, 90, 180, 270}`. -/
theorem rotation_frame :
    (∀ (s : AppState) (pid : Nat),
      (handleRotatePage pid s).ranges = s.ranges ∧
      (handleRotatePage pid s).history = s.history ∧
      (handleRotatePage pid s).historyIndex = s.historyIndex ∧
      (handleRotatePage pid s).pages = s.pages.map (fun p =>
        if p.id = pid then { p with rotation := (p.rotation + 90) % 360 } else p) ∧
      (∀ p ∈ s.pages, p.id ≠ pid → p ∈ (handleRotatePage pid s).pages) ∧
      (∀ p ∈ s.pages, p.id = pid →
        ({ p with rotation := (p.rotation + 90) % 360 } : PdfPage) ∈
          (handleRotatePage pid s).pages) ∧
      ((∀ p ∈ s.pages, p.rotation ∈ ([0, 90, 180, 270] : List Nat)) →
        ∀ p ∈ (handleRotatePage pid s).pages,
          p.rotation ∈ ([0, 90, 180, 270] : List Nat)) ∧
      (undo s).pages = s.pages ∧
      (redo s).pages = s.pages ∧
      (∀ nr, (updateRanges s nr).pages = s.pages)) ∧
    (∀ s, Reachable s → ∀ p ∈ s.pages,
      p.rotation ∈ ([0, 90, 180, 270] : List Nat)) := by
  have hrot : ∀ (pid : Nat) (s : AppState),
      (∀ p ∈ s.pages, p.rotation ∈ ([0, 90, 180, 270] : List Nat)) →
      ∀ p ∈ (handleRotatePage pid s).pages,
        p.rotation ∈ ([0, 90, 180, 270] : List Nat) := by
    intro pid s hall p hp
    obtain ⟨a, ha, hfa⟩ := List.mem_map.mp hp
    have hka := hall a ha
    by_cases h : a.id = pid
    · rw [← hfa]
      simp only [if_pos h]
      show (a.rotation + 90) % 360 ∈ ([0, 90, 180, 270] : List Nat)
      simp only [List.mem_cons, List.not_mem_nil, or_false] at hka
      rcases hka with h0 | h0 | h0 | h0 <;> rw [h0] <;> decide
    · rw [← hfa]
      simp only [if_neg h]
      exact hka
  have hundo : ∀ s : AppState, (undo s).pages = s.pages := by
    intro s
    unfold undo
    split <;> rfl
  have hredo : ∀ s : AppState, (redo s).pages = s.pages := by
    intro s
    unfold redo
    split <;> rfl
  constructor
  · intro s pid
    refine ⟨rfl, rfl, rfl, rfl, ?_, ?_, hrot pid s, hundo s, hredo s, fun nr => rfl⟩
    · intro p hp hne
      refine List.mem_map.mpr ⟨p, hp, ?_⟩
      simp only [if_neg hne]
    · intro p hp heq
      refine List.mem_map.mpr ⟨p, hp, ?_⟩
      simp only [if_pos heq]
  · intro s h
    induction h with
    | init => intro p hp; cases hp
    | upload s pc _ _ =>
        intro p hp
        obtain ⟨i, -, hip⟩ := List.mem_map.mp hp
        rw [← hip]
        show (0 : Nat) ∈ ([0, 90, 180, 270] : List Nat)
        decide
    | addRange s now a b _ ih =>
        intro p hp
        refine ih p ?_
        revert hp
        unfold handleAddRange
        split
        · exact id
        · exact id
    | remove s rid _ ih => exact ih
    | relabel s i l _ ih => exact ih
    | recolor s rid c _ ih => exact ih
    | aiSplit s parse now prompt o _ ih =>
        intro p hp
        refine ih p ?_
        revert hp
        unfold handleAiSmartSplit
        split
        · exact id
        · split
          · exact id
          · exact id
    | undoStep s _ ih =>
        intro p hp
        exact ih p ((hundo s) ▸ hp)
    | redoStep s _ ih =>
        intro p hp
        exact ih p ((hredo s) ▸ hp)
    | rotate s pid _ ih => exact hrot pid s ih

/-- Witness for `rotation_frame`: rotating page 0 of a fresh 2-page
document leaves the plan and history untouched, and all rotations of any
reachable state lie in `{0, 90, 180, 270}`. -/
theorem rotation_frame_witness :
    (handleRotatePage 0 (uploadState 2)).ranges = (uploadState 2).ranges ∧
    (∀ p ∈ handleRotatePage 0 (uploadState 2) |>.pages,
      p.rotation ∈ ([0, 90, 180, 270] : List Nat)) :=
  ⟨(rotation_frame.1 (uploadState 2) 0).1,
   rotation_frame.2 _ (Reachable.rotate (uploadState 2) 0
     (Reachable.upload initState 2 Reachable.init))⟩

/-! ### C6 — fixed-size chunking -/

theorem ceil_div_step (n k : Nat) (hk : 1 ≤ k) (hn : 0 < n) :
    (n + k - 1) / k = (n - k + k - 1) / k + 1 := by
  rcases le_or_lt n k with hle | hlt
  · have h1 : n - k = 0 := by omega
    have h3 : n + k - 1 = (n - 1) + k := by omega
    rw [h1, h3, Nat.add_div_right _ (by omega)]
    have h4 : (n - 1) / k = 0 := Nat.div_eq_of_lt (by omega)
    have h5 : (0 + k - 1) / k = 0 := Nat.div_eq_of_lt (by omega)
    rw [h4, h5]
  · have h2 : n - k + k - 1 = n - 1 := by omega
    have h3 : n + k - 1 = (n - 1) + k := by omega
    rw [h2, h3, Nat.add_div_right _ (by omega)]

/-- The FIXED loop with sufficient fuel produces exactly the consecutive
chunks `[i, i+k), [i+k, i+2k), …` capped at `totalPages`, one per
iteration, `ceil((totalPages - i) / k)` of them. -/
theorem splitByFixedAux_closedForm (b : String) (T k : Nat) (hk : 1 ≤ k) :
    ∀ (fuel i part : Nat), T ≤ i + fuel →
      splitByFixedAux b T k fuel i part =
        (List.range ((T - i + k - 1) / k)).map fun c =>
          fixedChunkSpec b T k (part + c) (i + c * k) := by
  intro fuel
  induction fuel with
  | zero =>
      intro i part h
      have hTi : T - i = 0 := by omega
      rw [splitByFixedAux, hTi]
      have h0 : (0 + k - 1) / k = 0 := Nat.div_eq_of_lt (by omega)
      rw [h0]
      rfl
  | succ n ih =>
      intro i part h
      by_cases hi : i < T
      · rw [splitByFixedAux, if_pos hi]
        rw [ih (i + k) (part + 1) (by omega)]
        have hrec : (T - i + k - 1) / k = (T - (i + k) + k - 1) / k + 1 := by
          have hstep := ceil_div_step (T - i) k hk (by omega)
          have heq : T - i - k = T - (i + k) := by omega
          rw [heq] at hstep
          exact hstep
        rw [hrec, List.range_succ_eq_map, List.map_cons, List.map_map]
        congr 1
        · show fixedChunkSpec b T k part i = fixedChunkSpec b T k (part + 0) (i + 0 * k)
          rw [Nat.add_zero, Nat.zero_mul, Nat.add_zero]
        · apply List.map_congr_left
          intro c hc
          show fixedChunkSpec b T k (part + 1 + c) (i + k + c * k) =
            fixedChunkSpec b T k (part + (c + 1)) (i + (c + 1) * k)
          have e1 : part + 1 + c = part + (c + 1) := by omega
          have e2 : i + k + c * k = i + (c + 1) * k := by ring
          rw [e1, e2]
      · rw [splitByFixedAux, if_neg hi]
        have hTi : T - i = 0 := by omega
        rw [hTi]
        have h0 : (0 + k - 1) / k = 0 := Nat.div_eq_of_lt (by omega)
        rw [h0]
        rfl

/-- C6: for chunk size `k ≥ 1`, the FIXED branch produces exactly
`ceil(totalPages / k)` OutputSpecs — chunk `c` carries the consecutive
0-based run starting at `c·k` and capped at `totalPages`, and is named by
its 1-based sequence index only; when `k` does not divide `totalPages`
the last chunk carries `totalPages mod k` pages. -/
theorem fixedChunking (b : String) (T k : Nat) (hk : 1 ≤ k) :
    splitByFixed b T k =
      (List.range ((T + k - 1) / k)).map
        (fun c => fixedChunkSpec b T k (c + 1) (c * k)) ∧
    (splitByFixed b T k).length = (T + k - 1) / k ∧
    (∀ c, fixedChunkSpec b T k (c + 1) (c * k) =
      { fileName := b ++ "_part_" ++ toString (c + 1) ++ ".pdf",
        pageIndices := intRun ((c * k : Nat) : Int) (min (c * k + k) T - c * k) }) ∧
    (¬ k ∣ T →
      ((splitByFixed b T k).getD ((T + k - 1) / k - 1) ⟨"", []⟩).pageIndices.length =
        T % k) := by
  have hcf : splitByFixed b T k = (List.range ((T + k - 1) / k)).map
      (fun c => fixedChunkSpec b T k (c + 1) (c * k)) := by
    unfold splitByFixed
    rw [splitByFixedAux_closedForm b T k hk T 0 1 (by omega), Nat.sub_zero]
    apply List.map_congr_left
    intro c hc
    have e1 : 1 + c = c + 1 := by omega
    have e2 : 0 + c * k = c * k := by omega
    rw [e1, e2]
  refine ⟨hcf, ?_, fun c => rfl, ?_⟩
  · rw [hcf]
    simp
  · intro hdvd
    have hmod : k * (T / k) + T % k = T := Nat.div_add_mod T k
    have hrk : T % k < k := Nat.mod_lt _ (by omega)
    have hrpos : T % k ≠ 0 := by
      intro h0
      exact hdvd ⟨T / k, by omega⟩
    have hceil : (T + k - 1) / k = T / k + 1 := by
      have h1 : T + k - 1 = k * (T / k + 1) + (T % k - 1) := by
        have hx : k * (T / k + 1) = k * (T / k) + k := by ring
        omega
      rw [h1, Nat.mul_add_div (by omega)]
      have h2 : (T % k - 1) / k = 0 := Nat.div_eq_of_lt (by omega)
      omega
    rw [hcf, hceil]
    have hlen : T / k + 1 - 1 <
        ((List.range (T / k + 1)).map
          (fun c => fixedChunkSpec b T k (c + 1) (c * k))).length := by
      simp
    rw [List.getD_eq_getElem _ _ hlen]
    simp only [List.getElem_map, List.getElem_range]
    show (intRun ((T / k + 1 - 1) * k : Nat) (min ((T / k + 1 - 1) * k + k) T -
      (T / k + 1 - 1) * k)).length = T % k
    have hlen2 : ∀ (a : Int) (m : Nat), (intRun a m).length = m := by
      intro a m
      unfold intRun
      rw [List.length_map, List.length_range]
    rw [hlen2]
    have hq : T / k + 1 - 1 = T / k := rfl
    rw [hq]
    have hqk : T / k * k = k * (T / k) := Nat.mul_comm _ _
    rw [hqk]
    generalize hP : k * (T / k) = P at hmod ⊢
    generalize hR : T % k = r at hmod hrk hrpos ⊢
    omega

/-- Witness for `fixedChunking`: 10 pages split every 3 pages give
exactly 4 outputs with page counts `[3, 3, 3, 1]` summing to 10, named
by sequence index only. -/
theorem fixedChunking_witness :
    (splitByFixed "doc" 10 3).length = (10 + 3 - 1) / 3 ∧
    (splitByFixed "doc" 10 3).map (fun o => o.pageIndices.length) = [3, 3, 3, 1] ∧
    ((splitByFixed "doc" 10 3).map (fun o => o.pageIndices.length)).sum = 10 ∧
    (splitByFixed "doc" 10 3).map (fun o => o.fileName) =
      ["doc_part_1.pdf", "doc_part_2.pdf", "doc_part_3.pdf", "doc_part_4.pdf"] :=
  ⟨(fixedChunking "doc" 10 3 (by decide)).2.1, by decide, by decide, by decide⟩

/-! ### C7 — arbitrary extraction -/

theorem intRun_length (a : Int) (m : Nat) : (intRun a m).length = m := by
  unfold intRun
  rw [List.length_map, List.length_range]

theorem intRun_getD (a : Int) (m j : Nat) (h : j < m) :
    (intRun a m).getD j 0 = a + (j : Int) := by
  have h' : j < (intRun a m).length := by
    rw [intRun_length]
    exact h
  rw [List.getD_eq_getElem _ _ h']
  unfold intRun
  simp only [List.getElem_map, List.getElem_range]

/-- C8 (amended): the RANGES branch emits exactly one OutputSpec per
range, in plan order — duplicates and overlaps included — whose page
indices are the contiguous 0-based run `[start-1 .. end-1]` (so
`end - start + 1` pages) and whose name is built from the base name, the
1-based sequence index and the label sanitized by collapsing WHITESPACE
runs to single underscores (`label.replace(/\s+/g, '_')`) — not, as the
frozen claim said, by collapsing non-alphanumeric runs. -/
theorem explicitRanges (b : String) (rs : List SplitRange) :
    (splitByRanges b rs).length = rs.length ∧
    (∀ i, i < rs.length →
      ((splitByRanges b rs).getD i ⟨"", []⟩).fileName =
        b ++ "_part_" ++ toString (i + 1) ++ "_" ++
          sanitizeLabel ((rs.getD i ⟨"", 0, 0, "", ""⟩).label) ++ ".pdf" ∧
      ((splitByRanges b rs).getD i ⟨"", []⟩).pageIndices =
        rangeIndices (rs.getD i ⟨"", 0, 0, "", ""⟩) ∧
      ((splitByRanges b rs).getD i ⟨"", []⟩).pageIndices.length =
        ((rs.getD i ⟨"", 0, 0, "", ""⟩).stop -
          (rs.getD i ⟨"", 0, 0, "", ""⟩).start + 1).toNat ∧
      (∀ j, j < ((splitByRanges b rs).getD i ⟨"", []⟩).pageIndices.length →
        ((splitByRanges b rs).getD i ⟨"", []⟩).pageIndices.getD j 0 =
          (rs.getD i ⟨"", 0, 0, "", ""⟩).start - 1 + (j : Int))) := by
  constructor
  · unfold splitByRanges
    exact List.length_mapIdx
  · intro i hi
    unfold splitByRanges
    rw [mapIdx_getD rs _ i (⟨"", 0, 0, "", ""⟩ : SplitRange)
      (⟨"", []⟩ : OutputSpec) hi]
    refine ⟨rfl, rfl, ?_, ?_⟩
    · show (rangeIndices (rs.getD i ⟨"", 0, 0, "", ""⟩)).length = _
      unfold rangeIndices
      rw [intRun_length]
      congr 1
      ring
    · intro j hj
      have hj2 : j < (intRun ((rs.getD i ⟨"", 0, 0, "", ""⟩).start - 1)
          ((rs.getD i ⟨"", 0, 0, "", ""⟩).stop -
            ((rs.getD i ⟨"", 0, 0, "", ""⟩).start - 1)).toNat).length := hj
      rw [intRun_length] at hj2
      exact intRun_getD _ _ _ hj2

/-- Witness for `explicitRanges`: the overlapping ranges `{1,5}` and
`{3,8}` yield two independent OutputSpecs with page counts 5 and 6, the
first named with its whitespace-sanitized label. -/
theorem explicitRanges_witness :
    (splitByRanges "doc"
      [⟨"i1", 1, 5, "Part 1", "c"⟩, ⟨"i2", 3, 8, "Part 2", "c"⟩]).length = 2 ∧
    (splitByRanges "doc"
      [⟨"i1", 1, 5, "Part 1", "c"⟩, ⟨"i2", 3, 8, "Part 2", "c"⟩]).map
        (fun o => o.pageIndices.length) = [5, 6] ∧
    ((splitByRanges "doc"
      [⟨"i1", 1, 5, "Part 1", "c"⟩, ⟨"i2", 3, 8, "Part 2", "c"⟩]).getD 0
        ⟨"", []⟩).fileName = "doc_part_1_Part_1.pdf" := by
  have h := (explicitRanges "doc"
    [⟨"i1", 1, 5, "Part 1", "c"⟩, ⟨"i2", 3, 8, "Part 2", "c"⟩]).2 0 (by decide)
  refine ⟨(explicitRanges "doc"
    [⟨"i1", 1, 5, "Part 1", "c"⟩, ⟨"i2", 3, 8, "Part 2", "c"⟩]).1, by decide, ?_⟩
  rw [h.1]
  decide

/-- C8 as frozen is false about the naming: the source sanitizes labels
by collapsing whitespace runs only, so the label `A-B` stays `A-B` in
the produced file name, while the claim's non-alphanumeric sanitization
would give `A_B`. -/
theorem explicitRanges_counterexample :
    ((splitByRanges "doc" [⟨"r1", 1, 2, "A-B", "#000"⟩]).getD 0 ⟨"", []⟩).fileName =
      "doc_part_1_A-B.pdf" ∧
    "doc" ++ "_part_" ++ toString (0 + 1) ++ "_" ++ specSanitizeLabel "A-B" ++ ".pdf" =
      "doc_part_1_A_B.pdf" ∧
    ((splitByRanges "doc" [⟨"r1", 1, 2, "A-B", "#000"⟩]).getD 0 ⟨"", []⟩).fileName ≠
      "doc" ++ "_part_" ++ toString (0 + 1) ++ "_" ++ specSanitizeLabel "A-B" ++ ".pdf" :=
  ⟨by decide, by decide, by decide⟩

/-! ### C9 — failed suggestions leave the state untouched, success is atomic -/

/-- C9 (amended): when the oracle call throws, or returns a NONEMPTY
reply that fails to decode, `getSmartSplitSuggestions` rejects with
`SuggestionFailed` and `handleAiSmartSplit` leaves the whole state — the
Plan, the history and its cursor — untouched; in every case the handler
either leaves the state unchanged or replaces the entire plan by the
colored suggestion list through one single `updateRanges` call (no
partial replace).  The frozen claim's universal failure clause does not
survive the empty reply: `if (!text) return []` turns it into a
successful empty suggestion (see the counterexample). -/
theorem suggestion_failure_atomic (parse : String → Option (List RawSuggestion))
    (now : Nat) (prompt : String) (o : OracleOutcome) (s : AppState) :
    ((o = OracleOutcome.apiError ∨
      ∃ t, o = OracleOutcome.reply t ∧ t ≠ "" ∧ parse t = none) →
      getSmartSplitSuggestions parse now o =
        Except.error SuggestionError.SuggestionFailed ∧
      handleAiSmartSplit parse now prompt o s = s) ∧
    (handleAiSmartSplit parse now prompt o s = s ∨
      ∃ rs, getSmartSplitSuggestions parse now o = Except.ok rs ∧
        handleAiSmartSplit parse now prompt o s =
          updateRanges s (rs.mapIdx fun i r =>
            { r with color := RANGE_COLORS.getD (i % RANGE_COLORS.length) "" })) := by
  constructor
  · intro h
    have herr : getSmartSplitSuggestions parse now o =
        Except.error SuggestionError.SuggestionFailed := by
      rcases h with h | ⟨t, rfl, ht, hp⟩
      · rw [h]
        rfl
      · simp only [getSmartSplitSuggestions]
        rw [if_neg ht, hp]
    refine ⟨herr, ?_⟩
    unfold handleAiSmartSplit
    split
    · rfl
    · rw [herr]
  · unfold handleAiSmartSplit
    split
    · exact Or.inl rfl
    · cases hg : getSmartSplitSuggestions parse now o with
      | error e => exact Or.inl rfl
      | ok rs => exact Or.inr ⟨rs, rfl, rfl⟩

/-- Witness for `suggestion_failure_atomic`: an API failure leaves the
fresh 3-page state untouched. -/
theorem suggestion_failure_witness :
    getSmartSplitSuggestions (fun _ => none) 0 OracleOutcome.apiError =
      Except.error SuggestionError.SuggestionFailed ∧
    handleAiSmartSplit (fun _ => none) 0 "p" OracleOutcome.apiError
      (uploadState 3) = uploadState 3 :=
  (suggestion_failure_atomic (fun _ => none) 0 "p" OracleOutcome.apiError
    (uploadState 3)).1 (Or.inl rfl)

/-- C9 as frozen is false on the empty reply: `""` is not decodable
(`JSON.parse` rejects it; here the decoder maps every text to `none`),
yet `getSmartSplitSuggestions` succeeds with `[]` because of the
`if (!text) return []` short circuit, and `handleAiSmartSplit` then
REPLACES the nonempty plan of the prior state with the empty plan and
moves the history cursor. -/
theorem suggestion_failure_counterexample :
    (fun _ : String => (none : Option (List RawSuggestion))) "" = none ∧
    getSmartSplitSuggestions (fun _ => none) 5 (OracleOutcome.reply "") =
      Except.ok [] ∧
    (handleAiSmartSplit (fun _ => none) 5 "p" (OracleOutcome.reply "")
      ((handleAddRange 0 1 1 (uploadState 3)).1)).ranges = [] ∧
    ((handleAddRange 0 1 1 (uploadState 3)).1).ranges ≠ [] ∧
    (handleAiSmartSplit (fun _ => none) 5 "p" (OracleOutcome.reply "")
      ((handleAddRange 0 1 1 (uploadState 3)).1)).historyIndex ≠
      ((handleAddRange 0 1 1 (uploadState 3)).1).historyIndex :=
  ⟨rfl, rfl, by decide, by decide, by decide⟩
